import Mathlib

/-!
Verification development for the URL-Extractor repository.

The repository contains two parallel Streamlit programs, `src/app.py`
("Unified FAQ Extractor") and `src/model.py` ("FAQ Genie").  Both are
shallowly embedded below: pure Python helpers become Lean functions on
`List Char` / `String`, BeautifulSoup documents become an explicit tree
type, the fixed regular expressions are compiled by hand into
deterministic matchers following Python `re` backtracking semantics
(leftmost match, lazy/greedy quantifiers, `re.S`/`re.I` flags as used),
and the fetch tiers / cache file become explicit environments and state.

Namespace `App` embeds `src/app.py`; namespace `Model` embeds
`src/model.py`.  Recursions that are not structural in the scanned list
take an explicit fuel argument; the wrappers pass the list length, which
is always sufficient because every step consumes at least one character.
-/

namespace URLX

/-- Python's whitespace set: `str.isspace()` and the regex class `\s`
agree on exactly this set of code points (verified against CPython). -/
def isPySpace (c : Char) : Bool :=
  c = ' ' ∨ c = '\t' ∨ c = '\n' ∨ c = '\x0b' ∨ c = '\x0c' ∨ c = '\r' ∨
  c = '\x1c' ∨ c = '\x1d' ∨ c = '\x1e' ∨ c = '\x1f' ∨ c = '\x85' ∨ c = '\xa0' ∨
  c = ' ' ∨ c = ' ' ∨ c = ' ' ∨ c = ' ' ∨ c = ' ' ∨
  c = ' ' ∨ c = ' ' ∨ c = ' ' ∨ c = ' ' ∨ c = ' ' ∨
  c = ' ' ∨ c = ' ' ∨ c = ' ' ∨ c = ' ' ∨ c = ' ' ∨
  c = ' ' ∨ c = '　'

/-- Python `str.strip()` on the left: drop leading whitespace. -/
def pyDropStartWs (l : List Char) : List Char := l.dropWhile isPySpace

/-- Python `str.strip()` on the right: drop trailing whitespace. -/
def pyDropEndWs (l : List Char) : List Char :=
  (l.reverse.dropWhile isPySpace).reverse

/-- Python `str.strip()`. -/
def pyStrip (l : List Char) : List Char := pyDropEndWs (pyDropStartWs l)

/-- Python `str.strip()` on `String`. -/
def pyStripS (s : String) : String := ⟨pyStrip s.data⟩

/-- `re.sub(r"\s+", " ", text)`, one-pass scanner: the flag records
whether the scanner is inside a whitespace run (a single space has
already been emitted for the run). -/
def collapseWsGo : Bool → List Char → List Char
  | _, [] => []
  | inWs, c :: rest =>
    if isPySpace c then
      if inWs then collapseWsGo true rest
      else ' ' :: collapseWsGo true rest
    else c :: collapseWsGo false rest

/-- `re.sub(r"\s+", " ", text)`: replace every maximal run of whitespace
by a single space. -/
def collapseWs (l : List Char) : List Char := collapseWsGo false l

/-- `re.sub(r"\xa0", " ", text)`: replace each non-breaking space by a
space. -/
def subNbsp (l : List Char) : List Char :=
  l.map (fun c => if c = '\xa0' then ' ' else c)

/-- Helper for the citation patterns: given the characters following an
opening bracket, consume `\d+\]` (one or more ASCII digits then `]`) and
return the suffix after the `]`, if that prefix shape is present.  Since
`]` is not a digit, only the maximal digit run can be followed by `]`,
so no backtracking inside `\d+` is needed. -/
def closeAfterDigits : List Char → Option (List Char)
  | [] => none
  | c :: rest =>
    if c = ']' then some rest
    else if c.isDigit then closeAfterDigits rest
    else none

/-- `\d+\]` needs one digit up front, then `closeAfterDigits` consumes
the remaining digits and the `]`. -/
def digitsThenClose : List Char → Option (List Char)
  | [] => none
  | c :: rest => if c.isDigit then closeAfterDigits rest else none

/-- Fuel-indexed scanner for `re.sub(r"\[\d+\]", "", text)` from
`app.py`'s `clean_text`: scan left-to-right; at each `[` that starts a
`[digits]` citation marker the whole marker is deleted and scanning
resumes after it; any other character is kept. -/
def rbdF : Nat → List Char → List Char
  | 0, l => l
  | _ + 1, [] => []
  | fuel + 1, c :: rest =>
    if c = '[' then
      match digitsThenClose rest with
      | some r2 => rbdF fuel r2
      | none => '[' :: rbdF fuel rest
    else c :: rbdF fuel rest

/-- `re.sub(r"\[\d+\]", "", text)`. -/
def rbd (l : List Char) : List Char := rbdF l.length l

/-- Fuel-indexed scanner for `re.sub(r"<\[\d+\]", "", text)` from
`model.py`'s `clean_text`: deletes `<[digits]` sequences (note the
mandatory `<`). -/
def rlbdF : Nat → List Char → List Char
  | 0, l => l
  | _ + 1, [] => []
  | fuel + 1, c :: rest =>
    if c = '<' then
      match rest with
      | [] => '<' :: rlbdF fuel []
      | d :: r1 =>
        if d = '[' then
          match digitsThenClose r1 with
          | some r2 => rlbdF fuel r2
          | none => '<' :: rlbdF fuel (d :: r1)
        else '<' :: rlbdF fuel (d :: r1)
    else c :: rlbdF fuel rest

/-- `re.sub(r"<\[\d+\]", "", text)`. -/
def rlbd (l : List Char) : List Char := rlbdF l.length l

/-- Helper for `\[.*?\]`: given the characters after an opening bracket,
find the first `]`, failing if a newline occurs first (`.` does not
match `\n` because the sub in `model.py` passes no flags).  Returns the
suffix after that `]`. -/
def findClose : List Char → Option (List Char)
  | [] => none
  | ']' :: rest => some rest
  | '\n' :: _ => none
  | _ :: rest => findClose rest

/-- Fuel-indexed scanner for `re.sub(r"\[.*?\]", " ", text)` from
`model.py`'s `clean_text`: each lazily-matched bracketed segment (up to
the first `]`, no newline in between) is replaced by a single space. -/
def sabF : Nat → List Char → List Char
  | 0, l => l
  | _ + 1, [] => []
  | fuel + 1, c :: rest =>
    if c = '[' then
      match findClose rest with
      | some r2 => ' ' :: sabF fuel r2
      | none => '[' :: sabF fuel rest
    else c :: sabF fuel rest

/-- `re.sub(r"\[.*?\]", " ", text)`. -/
def sab (l : List Char) : List Char := sabF l.length l

namespace App

/-- `app.py` lines 23–29:
```
def clean_text(text: str) -> str:
    text = re.sub(r"[¶Â]", "", text)
    text = re.sub(r"\[\d+\]", "", text)
    text = re.sub(r"\s+", " ", text)
    text = re.sub(r"\xa0", " ", text)
    return text.strip()
```
-/
def clean_text (s : String) : String :=
  ⟨pyStrip (subNbsp (collapseWs (rbd (s.data.filter (fun c => !(c = '¶' || c = 'Â'))))))⟩

end App

namespace Model

/-- `model.py` lines 15–23:
```
def clean_text(text: str) -> str:
    text = re.sub(r"¶", "", text)
    text = re.sub(r"Â", "", text)
    text = re.sub(r"<\[\d+\]", "", text)
    text = re.sub(r"\s+", " ", text)
    text = re.sub(r"\xa0", " ", text)
    text = re.sub(r"\[.*?\]", " ", text)
    return text.strip()
```
-/
def clean_text (s : String) : String :=
  ⟨pyStrip (sab (subNbsp (collapseWs (rlbd
    ((s.data.filter (fun c => !(c = '¶'))).filter (fun c => !(c = 'Â')))))))⟩

end Model

example : App.clean_text "[1[2]3]" = "[13]" := by decide
example : App.clean_text "[13]" = "" := by decide
example : App.clean_text "a [3] b" = "a b" := by decide
example : App.clean_text "a [note] b" = "a [note] b" := by decide
example : Model.clean_text "a [x] b" = "a   b" := by decide
example : Model.clean_text "a   b" = "a b" := by decide
example : Model.clean_text "see [note] here" = "see   here" := by decide
example : Model.clean_text "<[3]z" = "z" := by decide
example : Model.clean_text "[1[2]3]" = "3]" := by decide
example : App.clean_text "x ¶ \xa0 y" = "x y" := by decide

end URLX

namespace URLX

/-! ## BeautifulSoup document model

A parsed document is modelled in first-child / next-sibling form: `Dom`
is a forest (the soup's children).  HTML parsing itself is the model
boundary: properties are stated over the parsed tree, and each concrete
example documents the HTML it is the parse of. -/

/-- A parsed HTML forest: `nil` ends a sibling list, `text` is a
`NavigableString`, `elem` is a `Tag` with its name, `id` attribute,
`class` values, first-child forest, and following siblings. -/
inductive Dom where
  | nil
  | text (s : String) (rest : Dom)
  | elem (tag : String) (idAttr : Option String) (classes : List String)
      (children : Dom) (rest : Dom)

/-- A `Tag` detached from its sibling context. -/
structure El where
  tag : String
  idAttr : Option String
  classes : List String
  children : Dom

/-- All `NavigableString`s of the forest in document order. -/
def strings : Dom → List String
  | .nil => []
  | .text s rest => s :: strings rest
  | .elem _ _ _ cs rest => strings cs ++ strings rest

/-- `get_text(sep)` without stripping: join all strings with `sep`. -/
def getTextRaw (sep : String) (d : Dom) : String :=
  String.intercalate sep (strings d)

/-- `get_text(sep, strip=True)`: strip each string, skip the ones that
become empty, join with `sep`. -/
def getTextStrip (sep : String) (d : Dom) : String :=
  String.intercalate sep (((strings d).map pyStripS).filter (fun s => s ≠ ""))

/-- `get_text` variants on a detached tag. -/
def elGetTextRaw (sep : String) (el : El) : String := getTextRaw sep el.children

/-- `get_text(sep, strip=True)` on a detached tag. -/
def elGetTextStrip (sep : String) (el : El) : String := getTextStrip sep el.children

/-- All tags whose name satisfies `p`, in `find_all` (pre-order) order,
each paired with its following-sibling forest. -/
def elemsWithRest (p : String → Bool) : Dom → List (El × Dom)
  | .nil => []
  | .text _ rest => elemsWithRest p rest
  | .elem t i c cs rest =>
    (if p t then [(⟨t, i, c, cs⟩, rest)] else []) ++
      elemsWithRest p cs ++ elemsWithRest p rest

/-- `find_all` restricted to tag names satisfying `p`. -/
def findAllEls (p : String → Bool) (d : Dom) : List El :=
  (elemsWithRest p d).map (fun x => x.1)

/-- `find_next_sibling()` with no filter: the next sibling that is a
tag (strings are skipped). -/
def nextSiblingElem : Dom → Option El
  | .nil => none
  | .text _ rest => nextSiblingElem rest
  | .elem t i c cs _ => some ⟨t, i, c, cs⟩

/-- `find_next_sibling(tag)`: the nearest following sibling tag with the
given name. -/
def nextSiblingTag (tag : String) : Dom → Option El
  | .nil => none
  | .text _ rest => nextSiblingTag tag rest
  | .elem t i c cs rest =>
    if t = tag then some ⟨t, i, c, cs⟩ else nextSiblingTag tag rest

/-- `find_next_siblings()`: all following sibling tags in order. -/
def siblingEls : Dom → List El
  | .nil => []
  | .text _ rest => siblingEls rest
  | .elem t i c cs rest => ⟨t, i, c, cs⟩ :: siblingEls rest

/-- Remove (BS4 `decompose`) every element whose tag name is in `bad`,
subtrees included. -/
def stripTags (bad : List String) : Dom → Dom
  | .nil => .nil
  | .text s rest => .text s (stripTags bad rest)
  | .elem t i c cs rest =>
    if bad.contains t then stripTags bad rest
    else .elem t i c (stripTags bad cs) (stripTags bad rest)

/-- Python `needle in haystack` on strings (substring test). -/
def containsSub (needle hay : List Char) : Bool :=
  match hay with
  | [] => needle.isEmpty
  | _ :: t => needle.isPrefixOf hay || containsSub needle t

/-- Python `str.lower()` (ASCII range; the noise markers are ASCII). -/
def lowerS (s : String) : String := ⟨s.data.map Char.toLower⟩

/-- `model.py`'s id/class noise test: some marker occurs (as a
substring, case-insensitively) in the `id` attribute or in one of the
`class` values. -/
def hasMarker (markers : List String) (idAttr : Option String)
    (classes : List String) : Bool :=
  markers.any (fun m =>
    (match idAttr with
     | some s => containsSub m.data (lowerS s).data
     | none => false) ||
    classes.any (fun cl => containsSub m.data (lowerS cl).data))

/-- Remove every element whose tag is in `badTags` or whose id/class
matches a marker.  `model.py` first decomposes by tag and then loops the
markers; since decomposing a subtree removes everything inside it, the
final tree equals this single combined pass. -/
def stripNoisy (badTags markers : List String) : Dom → Dom
  | .nil => .nil
  | .text s rest => .text s (stripNoisy badTags markers rest)
  | .elem t i c cs rest =>
    if badTags.contains t || hasMarker markers i c then
      stripNoisy badTags markers rest
    else .elem t i c (stripNoisy badTags markers cs) (stripNoisy badTags markers rest)

/-- Shorthand for building example documents: an element with no
attributes and a single text child. -/
def tEl (tag s : String) (rest : Dom) : Dom :=
  .elem tag none [] (.text s .nil) rest

/-! ## The two Q/A regular expressions, hand-compiled

Python regexes are compiled into deterministic scanners that follow the
`re` backtracking order exactly (leftmost start, greedy `\s*` preferring
the longest run, lazy `(.*?)` preferring the shortest capture,
alternatives in written order).  Each compiled step is annotated with the
regex fragment it implements, and the compiled scanners were checked
against CPython `re` on a battery of inputs. -/

/-- Case-insensitive literal match (`pat` given in lowercase): returns
the suffix after the literal. -/
def stripLitCI (pat : List Char) (l : List Char) : Option (List Char) :=
  match pat, l with
  | [], rest => some rest
  | _ :: _, [] => none
  | p :: ps, c :: cs => if c.toLower = p then stripLitCI ps cs else none

/-- `app.py` pattern, second lazy group with its lookahead:
`(.*?)(?=\nQ|\Z)` under `re.I | re.S`.  Scan forward to the first
position where the lookahead holds — end of text (`\Z`) or a newline
followed by `Q`/`q` — returning (capture, remaining suffix).  Total: the
lookahead always holds at end of text. -/
def appScanG2 : List Char → List Char × List Char
  | [] => ([], [])
  | '\n' :: c :: rest =>
    if c.toLower = 'q' then ([], '\n' :: c :: rest)
    else
      match appScanG2 (c :: rest) with
      | (a, r) => ('\n' :: a, r)
  | c :: rest =>
    match appScanG2 rest with
    | (a, r) => (c :: a, r)

/-- `app.py` pattern, optional answer label `(?:A(?:nswer)?:)?` under
`re.I`: greedy, inner `(?:nswer)?` greedy; if no variant matches the
group matches empty.  Returns the suffix after the consumed label (or
the input unchanged). -/
def stripAGroup (l : List Char) : List Char :=
  match l with
  | [] => l
  | c :: rest =>
    if c.toLower = 'a' then
      match stripLitCI ['n', 's', 'w', 'e', 'r'] rest with
      | some (':' :: r2) => r2
      | _ =>
        match rest with
        | ':' :: r2 => r2
        | _ => l
    else l

/-- One attempt of `app.py`'s Strategy-A pattern
`Q(?:uestion)?:?\s*(.*?)(?:A(?:nswer)?:)?\s*(.*?)(?=\nQ|\Z)`
(`re.I | re.S`) anchored at the head of `l`.  The first lazy group
tries the empty capture first, and the rest of the pattern can complete
from every position (the optional answer label may match empty, `\s*`
may match empty, and the second lazy group may extend to end of text
where `\Z` holds, since with `re.S` the dot matches newlines too); so
the first group always captures the empty string. -/
def appMatch : List Char → Option (String × String × List Char)
  | [] => none
  | c :: rest =>
    if c.toLower = 'q' then
      let r1 := match stripLitCI "uestion".data rest with
        | some r => r
        | none => rest
      let r2 := match r1 with
        | ':' :: t => t
        | _ => r1
      let r3 := r2.dropWhile isPySpace
      let r4 := stripAGroup r3
      let r5 := r4.dropWhile isPySpace
      some ("", ⟨(appScanG2 r5).1⟩, (appScanG2 r5).2)
    else none

/-- `re.findall` for `app.py`'s Strategy-A pattern: repeatedly find the
leftmost match, collect its two groups, resume after the match.  Every
match consumes at least the `Q`, so fuel `l.length` suffices. -/
def appFindallF : Nat → List Char → List (String × String)
  | 0, _ => []
  | _ + 1, [] => []
  | fuel + 1, c :: rest =>
    match appMatch (c :: rest) with
    | some (q, a, r) => (q, a) :: appFindallF fuel r
    | none => appFindallF fuel rest

/-- `re.findall(pattern, text, re.I | re.S)` for `app.py` line 67. -/
def appFindall (l : List Char) : List (String × String) :=
  appFindallF l.length l

/-- `:` or `-`, for `model.py`'s `[:\-]` classes. -/
def colonDash (c : Char) : Bool := c = ':' || c = '-'

/-- `model.py` pattern, second lazy group with its lookahead:
`(.*?)(?=\nQ[:\-]|\Z)` under `re.I | re.S`: scan to the first position
at end of text or before `\n` + `Q`/`q` + `:`/`-`. -/
def scanG2M : List Char → List Char × List Char
  | [] => ([], [])
  | '\n' :: c :: d :: rest =>
    if c.toLower = 'q' && colonDash d then ([], '\n' :: c :: d :: rest)
    else
      match scanG2M (c :: d :: rest) with
      | (a, r) => ('\n' :: a, r)
  | c :: rest =>
    match scanG2M rest with
    | (a, r) => (c :: a, r)

/-- `model.py` pattern after the mandatory newline:
`\s*A[:\-]?\s*(.*?)(?=\nQ[:\-]|\Z)`.  The first `\s*` is greedy and no
whitespace character equals `A`/`a`, so only the maximal run can be
followed by the label; failure here is a genuine match failure. -/
def restMatchM (l : List Char) : Option (String × List Char) :=
  match l.dropWhile isPySpace with
  | [] => none
  | c :: t2 =>
    if c.toLower = 'a' then
      let t3 := match t2 with
        | ':' :: u => u
        | '-' :: u => u
        | _ => t2
      let t4 := t3.dropWhile isPySpace
      some (⟨(scanG2M t4).1⟩, (scanG2M t4).2)
    else none

/-- `model.py` pattern, lazy first group followed by the literal
newline: `(.*?)\n` + the rest.  Try each candidate newline from left to
right (the lazy group, under `re.S`, may itself contain newlines whose
continuation failed). Returns (first group, second group, suffix). -/
def scanNlTry : List Char → Option (List Char × String × List Char)
  | [] => none
  | '\n' :: t =>
    match restMatchM t with
    | some (a, rem) => some ([], a, rem)
    | none =>
      match scanNlTry t with
      | some (g, a, rem) => some ('\n' :: g, a, rem)
      | none => none
  | c :: t =>
    match scanNlTry t with
    | some (g, a, rem) => some (c :: g, a, rem)
    | none => none

/-- Backtracking of the greedy `\s*` right after `Q[:\-]?`: it prefers
consuming the whole whitespace run (`slen` maximal) and gives characters
back one at a time; for each choice the lazy group scans the remaining
suffix for a workable newline. -/
def slenLoop (r1 : List Char) : Nat → Option (String × String × List Char)
  | 0 =>
    match scanNlTry r1 with
    | some (g, a, rem) => some (⟨g⟩, a, rem)
    | none => none
  | k + 1 =>
    match scanNlTry (r1.drop (k + 1)) with
    | some (g, a, rem) => some (⟨g⟩, a, rem)
    | none => slenLoop r1 k

/-- One attempt of `model.py`'s Mode-A pattern
`Q[:\-]?\s*(.*?)\n\s*A[:\-]?\s*(.*?)(?=\nQ[:\-]|\Z)` (`re.S | re.I`)
anchored at the head of `l`.  The optional `[:\-]?` after `Q` cannot
affect matchability (a `:`/`-` is not a newline, so both branches see
the same candidate newlines), so it is consumed greedily. -/
def modelMatch : List Char → Option (String × String × List Char)
  | [] => none
  | c :: rest =>
    if c.toLower = 'q' then
      let r1 := match rest with
        | ':' :: t => t
        | '-' :: t => t
        | _ => rest
      slenLoop r1 (r1.takeWhile isPySpace).length
    else none

/-- `re.findall` for `model.py`'s Mode-A pattern. -/
def modelFindallF : Nat → List Char → List (String × String)
  | 0, _ => []
  | _ + 1, [] => []
  | fuel + 1, c :: rest =>
    match modelMatch (c :: rest) with
    | some (q, a, r) => (q, a) :: modelFindallF fuel r
    | none => modelFindallF fuel rest

/-- `re.findall(pattern, text, re.S | re.I)` for `model.py` line 73. -/
def modelFindall (l : List Char) : List (String × String) :=
  modelFindallF l.length l

end URLX

namespace URLX

example : appFindall "Q: What?\nA: This.\nQ: Why?\nA: Because.".data =
    [("", "What?\nA: This."), ("", "Why?\nA: Because.")] := by decide

example : appFindall "Question: How does it work?\nAnswer: Like this.\nQ: Two?\nA: Too.".data =
    [("", "How does it work?\nAnswer: Like this."), ("", "Two?\nA: Too.")] := by decide

example : appFindall "Q aa\nA bb".data = [("", "aa\nA bb")] := by decide

example : appFindall "no markers here".data = [] := by decide

example : appFindall "Q:\nA: lone answer".data = [("", "lone answer")] := by decide

example : appFindall "Q:   \nmid\nA: z".data = [("", "mid\nA: z")] := by decide

example : appFindall "QA\nA: p".data = [("", "A\nA: p")] := by decide

example : appFindall "Q\n\nA-indirect".data = [("", "A-indirect")] := by decide

example : modelFindall "Q: What?\nA: This.\nQ: Why?\nA: Because.".data =
    [("What?", "This."), ("Why?", "Because.")] := by decide

example : modelFindall "Q: aa?\nA: bb.\nHeading?\nContent.".data =
    [("aa?", "bb.\nHeading?\nContent.")] := by decide

example : modelFindall "Q:\nA: hi".data = [("", "hi")] := by decide

example : modelFindall "Q: x\n\n  A: y\nQ: z\nA: w".data =
    [("x", "y"), ("z", "w")] := by decide

example : modelFindall "Q: multi\nline q?\nA: ans\nQ- dash?\nA- dashans".data =
    [("multi\nline q?", "ans"), ("dash?", "dashans")] := by decide

example : modelFindall "no match".data = [] := by decide

example : modelFindall "Q:\n A: x".data = [("", "x")] := by decide

example : modelFindall "Q: \n\nA: y".data = [("", "y")] := by decide

example : modelFindall "Q:   \nmid\nA: z".data = [("mid", "z")] := by decide

example : modelFindall "QA\nA: p".data = [("A", "p")] := by decide

example : modelFindall "q: lower?\na: case".data = [("lower?", "case")] := by decide

example : modelFindall "Q: a\nB: no\nA: yes".data = [("a\nB: no", "yes")] := by decide

example : modelFindall "Q: one\nA: two\nnoQhere".data = [("one", "two\nnoQhere")] := by decide

example : modelFindall "Q: q\nA:".data = [("q", "")] := by decide

example : modelFindall "Q: q\nA: a\nQ: only trailing q".data = [("q", "a")] := by decide

example : modelFindall "Q: q1\nA: a1\nQ: q2\nA: a1".data =
    [("q1", "a1"), ("q2", "a1")] := by decide

end URLX

namespace URLX

/-- An extracted FAQ pair.  `app.py` stores it as
`{"question": q, "answer": a}`, `model.py` as `{"Q": q, "A": a}`; both
are two-string records. -/
structure FaqPair where
  question : String
  answer : String
deriving DecidableEq

/-- Python `s.endswith("?")`. -/
def endsWithQm (s : String) : Bool :=
  match s.data.getLast? with
  | some '?' => true
  | _ => false

/-- Python `s.startswith(c)` for a single character. -/
def startsWithCh (c : Char) (s : String) : Bool :=
  match s.data with
  | d :: _ => d = c
  | [] => false

namespace App

/-- `app.py` lines 50–51: the tag names decomposed by
`remove_noisy_tags`. -/
def noisyTags : List String :=
  ["script", "style", "nav", "footer", "header", "form",
   "noscript", "iframe", "button", "input", "aside"]

/-- `app.py` lines 48–53: `remove_noisy_tags`. -/
def remove_noisy_tags (d : Dom) : Dom := stripTags noisyTags d

/-- `app.py` lines 65–70, Strategy A (explicit `Q:`/`A:` markers): run
the compiled pattern over `soup.get_text(separator="\n", strip=True)`;
keep a pair when both raw groups are non-empty after stripping, storing
the `clean_text`ed groups. -/
def stratA (d : Dom) : List FaqPair :=
  (appFindall (getTextStrip "\n" d).data).filterMap (fun qa =>
    if pyStripS qa.1 ≠ "" ∧ pyStripS qa.2 ≠ "" then
      some ⟨clean_text qa.1, clean_text qa.2⟩
    else none)

/-- `app.py` lines 75–80, Strategy B: zip all `<dt>` tags with all
`<dd>` tags positionally; keep pairs whose stripped texts are both
non-empty (no `clean_text` here). -/
def stratB (d : Dom) : List FaqPair :=
  ((findAllEls (fun t => t = "dt") d).zip (findAllEls (fun t => t = "dd") d)).filterMap
    (fun p =>
      if elGetTextStrip "" p.1 ≠ "" ∧ elGetTextStrip "" p.2 ≠ "" then
        some ⟨elGetTextStrip "" p.1, elGetTextStrip "" p.2⟩
      else none)

/-- `app.py` lines 85–93, Strategy C: for each `<h1>`–`<h4>` whose next
sibling tag is `p`/`div`/`li`/`span`, keep (heading text, sibling text)
when the heading text ends in `?` and the sibling text is non-empty. -/
def stratC (d : Dom) : List FaqPair :=
  (elemsWithRest (fun t => t = "h1" ∨ t = "h2" ∨ t = "h3" ∨ t = "h4") d).filterMap
    (fun hr =>
      match nextSiblingElem hr.2 with
      | some nxt =>
        if nxt.tag = "p" ∨ nxt.tag = "div" ∨ nxt.tag = "li" ∨ nxt.tag = "span" then
          if endsWithQm (elGetTextStrip "" hr.1) ∧ elGetTextStrip "" nxt ≠ "" then
            some ⟨elGetTextStrip "" hr.1, elGetTextStrip "" nxt⟩
          else none
        else none
      | none => none)

/-- `app.py` line 99: the broad tag list of Strategy D. -/
def dTags : List String :=
  ["p", "div", "li", "span", "h2", "h3", "h4", "strong", "b"]

/-- `app.py` lines 98–110, Strategy D (loose sequential fallback): take
`get_text(" ", strip=True)` of every matching element in document
order; for each adjacent pair, accept it when the first text starts
with `Q` or ends with `?` and the second starts with `A`. -/
def stratD (d : Dom) : List FaqPair :=
  let texts := (findAllEls (fun t => dTags.contains t) d).map (elGetTextStrip " ")
  (texts.zip texts.tail).filterMap (fun p =>
    if (startsWithCh 'Q' p.1 ∨ endsWithQm p.1) ∧ startsWithCh 'A' p.2 then
      some ⟨p.1, p.2⟩
    else none)

/-- `app.py` lines 57–112, `extract_faqs_from_html`: noise removal then
the four strategies in order, returning the first non-empty result
(`if faqs: return faqs` after each strategy).  The argument is the
parsed tree of the html string (parsing is the model boundary). -/
def extract_faqs_from_html (d : Dom) : List FaqPair :=
  let soup := remove_noisy_tags d
  let a := stratA soup
  if a ≠ [] then a
  else
    let b := stratB soup
    if b ≠ [] then b
    else
      let c := stratC soup
      if c ≠ [] then c
      else stratD soup

end App

namespace Model

/-- `model.py` line 47: tags decomposed by `remove_noise`. -/
def noisyTags : List String :=
  ["head", "script", "style", "nav", "footer", "header", "form",
   "noscript", "iframe", "button", "input", "aside", "svg", "canvas",
   "link", "meta"]

/-- `model.py` line 51: the id/class noise markers. -/
def noisyMarkers : List String :=
  ["footer", "header", "nav", "toc", "sidebar", "masthead", "menu",
   "cookies", "ads", "advertisement", "promo", "newsletter"]

/-- `model.py` lines 46–57: `remove_noise`. -/
def remove_noise (d : Dom) : Dom := stripNoisy noisyTags noisyMarkers d

/-- `model.py` lines 69–78 and 81–103 share one acceptance rule: a
candidate (q, a) is appended exactly when both sides are non-empty and
neither side is already in the corresponding seen-set, and on appending
both sides are added to the seen-sets.  (Mode C tests `q` before
computing `a`, but `a` does not depend on the seen-sets, so the emitted
list is the same.) -/
def acceptPairs : List (String × String) → List String → List String → List FaqPair
  | [], _, _ => []
  | (q, a) :: rest, sq, sa =>
    if q ≠ "" ∧ a ≠ "" ∧ q ∉ sq ∧ a ∉ sa then
      ⟨q, a⟩ :: acceptPairs rest (q :: sq) (a :: sa)
    else acceptPairs rest sq sa

/-- `model.py` lines 71–78, Mode A candidates: the compiled pattern over
`soup.get_text("\n")` (no stripping), both groups `clean_text`ed. -/
def candA (d : Dom) : List (String × String) :=
  (modelFindall (getTextRaw "\n" d).data).map (fun qa =>
    (clean_text qa.1, clean_text qa.2))

/-- `model.py` lines 81–87, Mode B candidates: each `<dt>` with its
nearest following `<dd>` sibling, both `get_text()`ed (plain, no
stripping) and `clean_text`ed. -/
def candB (d : Dom) : List (String × String) :=
  (elemsWithRest (fun t => t = "dt") d).filterMap (fun dr =>
    match nextSiblingTag "dd" dr.2 with
    | some dd => some (clean_text (elGetTextRaw "" dr.1), clean_text (elGetTextRaw "" dd))
    | none => none)

/-- `model.py` line 96: sibling tags that stop answer accumulation. -/
def breakTags : List String := ["h2", "h3", "h4", "dt", "div"]

/-- `model.py` line 98: sibling tags whose text is accumulated. -/
def contentTags : List String := ["p", "dd", "ul", "ol"]

/-- `model.py` lines 94–99: walk the following sibling tags, stopping at
the first break tag, collecting `clean_text(sib.get_text(" ",
strip=True))` of each content tag. -/
def answerParts : List El → List String
  | [] => []
  | el :: rest =>
    if breakTags.contains el.tag then []
    else if contentTags.contains el.tag then
      clean_text (elGetTextStrip " " el) :: answerParts rest
    else answerParts rest

/-- `model.py` lines 89–103, Mode C candidates: each `<h2>`/`<h3>`/`<h4>`
heading paired with the space-join of its accumulated answer parts. -/
def candC (d : Dom) : List (String × String) :=
  (elemsWithRest (fun t => t = "h2" ∨ t = "h3" ∨ t = "h4") d).map (fun hr =>
    (clean_text (elGetTextRaw "" hr.1),
     String.intercalate " " (answerParts (siblingEls hr.2))))

/-- `model.py` lines 60–105 after fetching: `remove_noise` then Modes
A, B, C run in sequence, all appending to one list through the shared
seen-sets (there is no early return between modes). -/
def extract_from_soup (d : Dom) : List FaqPair :=
  let soup := remove_noise d
  acceptPairs (candA soup ++ candB soup ++ candC soup) [] []

end Model

end URLX

namespace URLX

/-- Parse tree of the plain text
`"Q: What?\nA: This.\nQ: Why?\nA: Because."` (html.parser keeps it as a
single `NavigableString`). -/
def plainQaDoc : Dom := .text "Q: What?\nA: This.\nQ: Why?\nA: Because." .nil

example : App.extract_faqs_from_html plainQaDoc = [] := by decide

example : Model.extract_from_soup plainQaDoc =
    [⟨"What?", "This."⟩, ⟨"Why?", "Because."⟩] := by decide

/-- Parse tree of
`Q: aa?\nA: bb.<h2>Heading?</h2><p>Content.</p>`: a document carrying
both explicit Q/A markers and a heading structure. -/
def mixedDoc : Dom :=
  .text "Q: aa?\nA: bb." (tEl "h2" "Heading?" (tEl "p" "Content." .nil))

example : Model.acceptPairs (Model.candA (Model.remove_noise mixedDoc)) [] [] =
    [⟨"aa?", "bb. Heading? Content."⟩] := by decide

example : Model.extract_from_soup mixedDoc =
    [⟨"aa?", "bb. Heading? Content."⟩, ⟨"Heading?", "Content."⟩] := by decide

example : App.extract_faqs_from_html mixedDoc = [⟨"Heading?", "Content."⟩] := by decide

/-- Parse tree of
`<dl><dt>D?</dt><dd>X</dd><dt>D?</dt><dd>X</dd></dl>`: the same pair
twice. -/
def dupDoc : Dom :=
  .elem "dl" none []
    (tEl "dt" "D?" (tEl "dd" "X" (tEl "dt" "D?" (tEl "dd" "X" .nil)))) .nil

example : App.extract_faqs_from_html dupDoc = [⟨"D?", "X"⟩, ⟨"D?", "X"⟩] := by decide

example : Model.extract_from_soup dupDoc = [⟨"D?", "X"⟩] := by decide

end URLX

namespace URLX

/-! ## Fetch tiers

Network and rendering are outside the model: an environment records, for
one URL and one run, what each fetch tier would deliver — `Except.error`
when the Python code in that tier raises (transport error, non-2xx via
`raise_for_status`, render error), `Except.ok` with the fetched
document otherwise.  The Streamlit `st.error`/`st.info` calls are
logging no-ops.  For `app.py` the tiers carry the parsed tree (parsing
never raises); for `model.py`, `fetch_html` returns the raw html
string. -/

namespace App

/-- Tier outcomes for one `fetch_and_extract_all(url)` call:
`tier1` = `requests.get` + `raise_for_status`, `hasHTMLSession` =
`HTMLSession is not None` (requests_html importable), `tier2` =
requests_html session + render, `tier3` = Selenium. -/
structure FetchEnv where
  tier1 : Except String Dom
  hasHTMLSession : Bool
  tier2 : Except String Dom
  tier3 : Except String Dom

/-- `app.py` lines 114–155, `fetch_and_extract_all`: each tier is a
`try`/`except` whose handler only logs, so a tier error leaves
`faqs = []` and control falls through to the next tier; a tier whose
extraction is non-empty returns immediately; tier 2 runs only when
`HTMLSession` imported; the Selenium `except` returns `[]`.  The
`Except` codomain records whether the call raises towards the caller:
every Python path returns normally, so every branch here is `.ok`. -/
def fetch_and_extract_all (env : FetchEnv) : Except String (List FaqPair) :=
  let faqs1 :=
    match env.tier1 with
    | .ok doc => extract_faqs_from_html doc
    | .error _ => []
  if faqs1 ≠ [] then .ok faqs1
  else
    let faqs2 :=
      if env.hasHTMLSession then
        match env.tier2 with
        | .ok doc => extract_faqs_from_html doc
        | .error _ => []
      else []
    if faqs2 ≠ [] then .ok faqs2
    else
      match env.tier3 with
      | .ok doc => .ok (extract_faqs_from_html doc)
      | .error _ => .ok []

end App

namespace Model

/-- Tier outcomes for one `fetch_html(url)` call in `model.py`:
`urlHasFaq` = `"faq" in url.lower()`, `tier1` = `requests.get` +
`raise_for_status` delivering the body text, `tier2` = requests_html
render delivering the rendered html. -/
structure FetchEnv where
  urlHasFaq : Bool
  tier1 : Except String String
  hasHTMLSession : Bool
  tier2 : Except String String

/-- `model.py` lines 25–44, `fetch_html`: tier-1 errors are caught and
leave `html = ""`; rendering runs when the URL hints at FAQs or the
html is blank (and `HTMLSession` imported); a render error keeps the
tier-1 html.  The function always returns a string, never raises. -/
def fetch_html (env : FetchEnv) : String :=
  let html :=
    match env.tier1 with
    | .ok h => h
    | .error _ => ""
  if (env.urlHasFaq || pyStripS html = "") && env.hasHTMLSession then
    match env.tier2 with
    | .ok h2 => h2
    | .error _ => html
  else html

end Model

/-! ## The cache file

The on-disk cache is modelled one level above raw bytes: a file is the
list of top-level JSON documents written to it, in order (`json.dump`
writes one; `model.py`'s `save_faq_store` writes one per line).
`json.load` succeeds exactly when the file consists of one document
(Python ignores surrounding whitespace, and a second document raises
`JSONDecodeError("Extra data")`); both loaders catch `JSONDecodeError`
and fall back to `{}`, as does a missing file. -/

/-- A JSON value (the fragment these programs produce). -/
inductive Json where
  | str (s : String)
  | arr (xs : List Json)
  | obj (kvs : List (String × Json))

/-- Python `dict` lookup on an insertion-ordered association list
(keys unique). -/
def lookupAssoc {α : Type} : List (String × α) → String → Option α
  | [], _ => none
  | kv :: rest, k => if kv.1 = k then some kv.2 else lookupAssoc rest k

/-- An in-memory store: URL → extracted pairs, in insertion order. -/
abbrev Store := List (String × List FaqPair)

namespace App

/-- JSON shape of one result in `app.py`:
`[{"question": q, "answer": a}, ...]`. -/
def resultToJson (r : List FaqPair) : Json :=
  .arr (r.map (fun p => .obj [("question", .str p.question), ("answer", .str p.answer)]))

/-- `app.py` lines 169–172, `save_faq_cache`: `json.dump(faq_store, f)`
writes the whole store as a single JSON object keyed by URL. -/
def save_faq_cache (store : Store) : List Json :=
  [.obj (store.map (fun kv => (kv.1, resultToJson kv.2)))]

/-- `app.py` lines 159–167, `load_faq_cache`: `json.load` of the cache
file, `{}` on `JSONDecodeError` or missing file.  The loaded value is
used directly as the store dict. -/
def load_faq_cache (file : List Json) : List (String × Json) :=
  match file with
  | [.obj kvs] => kvs
  | _ => []

end App

namespace Model

/-- JSON shape of one result in `model.py`: `[{"Q": q, "A": a}, ...]`. -/
def resultToJson (r : List FaqPair) : Json :=
  .arr (r.map (fun p => .obj [("Q", .str p.question), ("A", .str p.answer)]))

/-- `model.py` lines 117–120, `save_faq_store`: one JSON document
`{"url": key, "faqs": value}` per store entry, one per line
(JSON-Lines). -/
def save_faq_store (store : Store) : List Json :=
  store.map (fun kv => .obj [("url", .str kv.1), ("faqs", resultToJson kv.2)])

/-- `model.py` lines 108–115: the startup load is `json.load` of the
whole file with `JSONDecodeError` (and missing file) giving `{}`;
whatever single document it returns is used directly as the store
dict.  (On the single-document files produced by `save_faq_store` that
document is the `{"url": ..., "faqs": ...}` wrapper object itself.) -/
def load_store (file : List Json) : List (String × Json) :=
  match file with
  | [.obj kvs] => kvs
  | _ => []

end Model

namespace App

/-- Store plus persisted cache file, as seen by `app.py`'s UI flow. -/
structure CacheState where
  store : Store
  file : List Json

/-- `app.py` lines 182–195, one button press for URL `u`: on a cache
hit the stored result is served and nothing changes; on a miss,
`fetch_and_extract_all` produces `fresh`, and only a non-empty `fresh`
is inserted and the cache re-saved (`if faqs: faq_store[url] = faqs;
save_faq_cache(...)`). -/
def handle_request (st : CacheState) (u : String) (fresh : List FaqPair) :
    CacheState × List FaqPair :=
  match lookupAssoc st.store u with
  | some r => (st, r)
  | none =>
    if fresh ≠ [] then
      let s2 := st.store ++ [(u, fresh)]
      ({ store := s2, file := save_faq_cache s2 }, fresh)
    else (st, fresh)

end App

namespace Model

/-- Store plus persisted cache file, as seen by `model.py`'s UI flow. -/
structure CacheState where
  store : Store
  file : List Json

/-- `model.py` lines 127–136, one request for URL `u`: on a cache hit
the stored result is served; on a miss `extract_faq` produces `fresh`,
which is inserted unconditionally (even when empty) and the store
re-saved. -/
def handle_request (st : CacheState) (u : String) (fresh : List FaqPair) :
    CacheState × List FaqPair :=
  match lookupAssoc st.store u with
  | some r => (st, r)
  | none =>
    let s2 := st.store ++ [(u, fresh)]
    ({ store := s2, file := save_faq_store s2 }, fresh)

end Model

end URLX

namespace URLX

/-! ## Helper lemmas -/

theorem appMatch_fst_empty {l : List Char} {q a : String} {r : List Char}
    (h : appMatch l = some (q, a, r)) : q = "" := by
  match l with
  | [] => simp [appMatch] at h
  | c :: rest =>
    rw [appMatch] at h
    split at h
    · simp only [Option.some.injEq, Prod.mk.injEq] at h
      exact h.1.symm
    · cases h

theorem appFindallF_fst_empty :
    ∀ (fuel : Nat) (l : List Char), ∀ qa ∈ appFindallF fuel l, qa.1 = "" := by
  intro fuel
  induction fuel with
  | zero => intro l qa h; simp [appFindallF] at h
  | succ n ih =>
    intro l qa h
    match l with
    | [] => simp [appFindallF] at h
    | c :: rest =>
      rw [appFindallF] at h
      split at h
      · rename_i q a r heq
        rcases List.mem_cons.mp h with rfl | hmem
        · exact appMatch_fst_empty heq
        · exact ih r qa hmem
      · exact ih rest qa h

/-- `app.py`'s Strategy A never yields a pair: its regex's first lazy
group always captures the empty string, and the `if q.strip()` guard
then rejects every match. -/
theorem App.stratA_eq_nil (d : Dom) : App.stratA d = [] := by
  unfold App.stratA
  rw [List.filterMap_eq_nil_iff]
  intro qa hqa
  have hq : qa.1 = "" := appFindallF_fst_empty _ _ qa hqa
  rw [hq, if_neg]
  intro hcontra
  exact hcontra.1 rfl

theorem acceptPairsSubset :
    ∀ (cands : List (String × String)) (sq sa : List String) (p : FaqPair),
      p ∈ Model.acceptPairs cands sq sa →
      p.question ≠ "" ∧ p.answer ≠ "" ∧ p.question ∉ sq ∧ p.answer ∉ sa := by
  intro cands
  induction cands with
  | nil => intro sq sa p h; simp [Model.acceptPairs] at h
  | cons qa rest ih =>
    obtain ⟨q, a⟩ := qa
    intro sq sa p h
    rw [Model.acceptPairs] at h
    split at h
    · rename_i hcond
      rcases List.mem_cons.mp h with rfl | hmem
      · exact ⟨hcond.1, hcond.2.1, hcond.2.2.1, hcond.2.2.2⟩
      · obtain ⟨h1, h2, h3, h4⟩ := ih _ _ p hmem
        refine ⟨h1, h2, fun hc => h3 (List.mem_cons_of_mem _ hc),
          fun hc => h4 (List.mem_cons_of_mem _ hc)⟩
    · exact ih _ _ p h

theorem acceptPairsPairwise :
    ∀ (cands : List (String × String)) (sq sa : List String),
      (Model.acceptPairs cands sq sa).Pairwise
        (fun p p' => p.question ≠ p'.question ∧ p.answer ≠ p'.answer) := by
  intro cands
  induction cands with
  | nil => intro sq sa; simp [Model.acceptPairs]
  | cons qa rest ih =>
    obtain ⟨q, a⟩ := qa
    intro sq sa
    rw [Model.acceptPairs]
    split
    · refine List.Pairwise.cons ?_ (ih _ _)
      intro p hp
      obtain ⟨-, -, hq, ha⟩ := acceptPairsSubset rest (q :: sq) (a :: sa) p hp
      exact ⟨fun he => hq (he ▸ List.mem_cons_self q sq),
        fun he => ha (he ▸ List.mem_cons_self a sa)⟩
    · exact ih _ _

theorem endsWithQm_ne_empty {s : String} (h : endsWithQm s = true) : s ≠ "" := by
  intro he
  subst he
  simp [endsWithQm] at h

theorem startsWithCh_ne_empty {c : Char} {s : String} (h : startsWithCh c s = true) :
    s ≠ "" := by
  intro he
  subst he
  simp [startsWithCh] at h

theorem App.stratB_fields {d : Dom} {p : FaqPair} (h : p ∈ App.stratB d) :
    p.question ≠ "" ∧ p.answer ≠ "" := by
  unfold App.stratB at h
  rw [List.mem_filterMap] at h
  obtain ⟨pr, -, hf⟩ := h
  split at hf
  · rename_i hcond
    cases hf
    exact hcond
  · cases hf

theorem App.stratC_fields {d : Dom} {p : FaqPair} (h : p ∈ App.stratC d) :
    p.question ≠ "" ∧ p.answer ≠ "" := by
  unfold App.stratC at h
  rw [List.mem_filterMap] at h
  obtain ⟨pr, -, hf⟩ := h
  split at hf
  · split at hf
    · split at hf
      · rename_i hcond
        cases hf
        exact ⟨endsWithQm_ne_empty hcond.1, hcond.2⟩
      · cases hf
    · cases hf
  · cases hf

theorem App.stratD_fields {d : Dom} {p : FaqPair} (h : p ∈ App.stratD d) :
    p.question ≠ "" ∧ p.answer ≠ "" := by
  unfold App.stratD at h
  rw [List.mem_filterMap] at h
  obtain ⟨pr, -, hf⟩ := h
  split at hf
  · rename_i hcond
    cases hf
    refine ⟨?_, startsWithCh_ne_empty hcond.2⟩
    rcases hcond.1 with hq | hq
    · exact startsWithCh_ne_empty hq
    · exact endsWithQm_ne_empty hq
  · cases hf

theorem lookupAssoc_append_self {α : Type} (s : List (String × α)) (u : String) (v : α)
    (h : lookupAssoc s u = none) : lookupAssoc (s ++ [(u, v)]) u = some v := by
  induction s with
  | nil => simp [lookupAssoc]
  | cons kv rest ih =>
    rw [lookupAssoc] at h
    rw [List.cons_append, lookupAssoc]
    split at h
    · cases h
    · rename_i hne
      rw [if_neg hne]
      exact ih h

end URLX

namespace URLX

theorem pyStripS_empty : pyStripS "" = "" := rfl

theorem app_handle_request_hit (st : App.CacheState) (u : String) (fresh r : List FaqPair)
    (h : lookupAssoc st.store u = some r) : App.handle_request st u fresh = (st, r) := by
  unfold App.handle_request
  rw [h]

theorem app_handle_request_miss (st : App.CacheState) (u : String) (fresh : List FaqPair)
    (h : lookupAssoc st.store u = none) (hne : fresh ≠ []) :
    App.handle_request st u fresh =
      (⟨st.store ++ [(u, fresh)], App.save_faq_cache (st.store ++ [(u, fresh)])⟩, fresh) := by
  unfold App.handle_request
  rw [h]
  simp [hne]

theorem model_handle_request_hit (st : Model.CacheState) (u : String) (fresh r : List FaqPair)
    (h : lookupAssoc st.store u = some r) : Model.handle_request st u fresh = (st, r) := by
  unfold Model.handle_request
  rw [h]

theorem model_handle_request_miss (st : Model.CacheState) (u : String) (fresh : List FaqPair)
    (h : lookupAssoc st.store u = none) :
    Model.handle_request st u fresh =
      (⟨st.store ++ [(u, fresh)], Model.save_faq_store (st.store ++ [(u, fresh)])⟩, fresh) := by
  unfold Model.handle_request
  rw [h]

/-! ## Claim theorems -/

/-- C1 (counterexample).  The claim says extraction returns the first
successful strategy's pairs and that, on a document with both explicit
Q/A markers and heading structures, Strategy A's pairs are returned and
Strategy C's pairs do not appear.  On `mixedDoc` (text
`Q: aa?\nA: bb.` followed by `<h2>Heading?</h2><p>Content.</p>`),
`model.py`'s Mode A alone yields exactly one pair, yet the extractor's
output also contains the Mode-C (heading) pair — later strategies do
contribute; and `app.py` returns the Strategy-C pair instead of
Strategy A's. -/
theorem c1_cascade_counterexample :
    Model.acceptPairs (Model.candA (Model.remove_noise mixedDoc)) [] [] =
      [⟨"aa?", "bb. Heading? Content."⟩] ∧
    Model.extract_from_soup mixedDoc =
      [⟨"aa?", "bb. Heading? Content."⟩, ⟨"Heading?", "Content."⟩] ∧
    App.extract_faqs_from_html mixedDoc = [⟨"Heading?", "Content."⟩] :=
  ⟨by decide, by decide, by decide⟩

/-- C1 (amended).  `app.py`'s `extract_faqs_from_html` does return the
first non-empty strategy result, but its Strategy A never yields any
pair (its regex's question group always captures the empty string), so
the cascade effectively starts at Strategy B; `model.py`'s `extract_faq`
does not cascade at all — its three modes all contribute to one output
(shown by the counterexample). -/
theorem c1_cascade_amended (d : Dom) :
    App.stratA d = [] ∧
    App.extract_faqs_from_html d =
      (if App.stratB (App.remove_noisy_tags d) ≠ [] then App.stratB (App.remove_noisy_tags d)
       else if App.stratC (App.remove_noisy_tags d) ≠ [] then App.stratC (App.remove_noisy_tags d)
       else App.stratD (App.remove_noisy_tags d)) := by
  refine ⟨App.stratA_eq_nil d, ?_⟩
  unfold App.extract_faqs_from_html
  simp only [App.stratA_eq_nil, ne_eq, not_true_eq_false, if_false, ite_not]

/-- C2.  Fetch-tier error containment: `app.py`'s
`fetch_and_extract_all` (1) always returns normally, for every
combination of tier outcomes; (2) returns `[]` when all three tiers
raise; (3) on a tier-1 error proceeds to tier 2 (when requests_html is
available) and returns its extraction when non-empty; and (4)
`model.py`'s `fetch_html` returns `""` when both its tiers raise. -/
theorem c2_fetch_error_containment :
    (∀ env : App.FetchEnv, ∃ l, App.fetch_and_extract_all env = Except.ok l) ∧
    (∀ (env : App.FetchEnv) (e1 e2 e3 : String),
      env.tier1 = Except.error e1 → env.tier2 = Except.error e2 →
      env.tier3 = Except.error e3 →
      App.fetch_and_extract_all env = Except.ok []) ∧
    (∀ (env : App.FetchEnv) (e1 : String) (doc : Dom),
      env.tier1 = Except.error e1 → env.hasHTMLSession = true →
      env.tier2 = Except.ok doc → App.extract_faqs_from_html doc ≠ [] →
      App.fetch_and_extract_all env = Except.ok (App.extract_faqs_from_html doc)) ∧
    (∀ (env : Model.FetchEnv) (e1 e2 : String),
      env.tier1 = Except.error e1 → env.tier2 = Except.error e2 →
      Model.fetch_html env = "") := by
  refine ⟨?_, ?_, ?_, ?_⟩
  · intro env
    unfold App.fetch_and_extract_all
    dsimp only
    split
    all_goals split
    any_goals exact ⟨_, rfl⟩
    all_goals split
    any_goals exact ⟨_, rfl⟩
    all_goals split
    all_goals exact ⟨_, rfl⟩
  · intro env e1 e2 e3 h1 h2 h3
    unfold App.fetch_and_extract_all
    rw [h1, h2, h3]
    simp
  · intro env e1 doc h1 hs h2 hne
    unfold App.fetch_and_extract_all
    rw [h1, h2, hs]
    simp [hne]
  · intro env e1 e2 h1 h2
    unfold Model.fetch_html
    rw [h1, h2]
    simp [pyStripS_empty]

/-- C2 (witness): the all-tiers-fail environment yields `.ok []`. -/
theorem c2_fetch_error_containment_witness :
    App.fetch_and_extract_all
      ⟨Except.error "connection refused", true,
       Except.error "render timeout", Except.error "webdriver error"⟩ = Except.ok [] :=
  c2_fetch_error_containment.2.1
    ⟨Except.error "connection refused", true,
     Except.error "render timeout", Except.error "webdriver error"⟩
    "connection refused" "render timeout" "webdriver error" rfl rfl rfl

/-- The C3 failing input: a store holding one URL with one pair. -/
def c3Store : Store := [("http://x", [⟨"q", "a"⟩])]

/-- C3.  Persistence round-trip.  `model.py` writes the store as
JSON-Lines records `{"url": u, "faqs": r}` (`save_faq_store`) but loads
the cache with a whole-file `json.load` used directly as the store
dict; on the file just saved for `c3Store`, looking up `"http://x"` in
the freshly loaded store yields `none`, not the stored result — the
write-then-read property fails on `model.py`'s own representation.  The
same round-trip through `app.py`'s `save_faq_cache`/`load_faq_cache`
does return the stored result. -/
theorem c3_roundtrip_failing_eval :
    lookupAssoc (Model.load_store (Model.save_faq_store c3Store)) "http://x" = none ∧
    lookupAssoc (App.load_faq_cache (App.save_faq_cache c3Store)) "http://x" =
      some (App.resultToJson [⟨"q", "a"⟩]) :=
  ⟨rfl, rfl⟩

/-- C4 (counterexample).  The claim says no two pairs emitted in one
extraction run share a question or an answer.  `app.py` deduplicates
nothing: on `dupDoc` (`<dl>` with the same `dt`/`dd` pair twice) its
Strategy B emits the identical pair twice. -/
theorem c4_dedup_counterexample :
    ¬ (App.extract_faqs_from_html dupDoc).Pairwise
        (fun p p' => p.question ≠ p'.question ∧ p.answer ≠ p'.answer) := by
  decide

/-- C4 (amended).  The deduplication guarantee holds for `model.py`'s
extractor: no two emitted pairs share a question or an answer
(first occurrence wins), and on text with two Q/A occurrences sharing
an answer only the first is kept.  `app.py`'s extractor does not
deduplicate (see the counterexample). -/
theorem c4_dedup_amended :
    (∀ d : Dom,
      (Model.extract_from_soup d).Pairwise
        (fun p p' => p.question ≠ p'.question ∧ p.answer ≠ p'.answer)) ∧
    Model.extract_from_soup (.text "Q: q1\nA: a1\nQ: q2\nA: a1" .nil) = [⟨"q1", "a1"⟩] := by
  constructor
  · intro d
    exact acceptPairsPairwise _ _ _
  · decide

/-- C5 (counterexample).  On the plain text
`"Q: What?\nA: This.\nQ: Why?\nA: Because."`, `app.py`'s extraction
yields no pairs at all (its Strategy-A regex captures empty questions
and every later strategy finds no elements), not the two claimed
pairs. -/
theorem c5_example_counterexample :
    App.extract_faqs_from_html plainQaDoc = [] ∧
    App.extract_faqs_from_html plainQaDoc ≠ [⟨"What?", "This."⟩, ⟨"Why?", "Because."⟩] :=
  ⟨by decide, by decide⟩

/-- C5 (amended).  `model.py`'s Mode A extracts exactly the two pairs,
in order, from that text; `app.py`'s extraction yields none. -/
theorem c5_example_amended :
    Model.extract_from_soup plainQaDoc = [⟨"What?", "This."⟩, ⟨"Why?", "Because."⟩] ∧
    App.extract_faqs_from_html plainQaDoc = [] :=
  ⟨by decide, by decide⟩

/-- C7.  First-write-wins: once a first result `r1` is cached for `u`
(a miss inserting `r1`), a later request for `u` with a different fresh
result `r2` returns `r1` and leaves both store and cache file
unchanged, in both programs.  (`app.py` requires `r1 ≠ []` for the
first insertion to happen at all.) -/
theorem c7_first_write_wins (s0 : Store) (f0 : List Json) (u : String)
    (r1 r2 : List FaqPair) (hnone : lookupAssoc s0 u = none) (hr1 : r1 ≠ []) :
    App.handle_request (App.handle_request ⟨s0, f0⟩ u r1).1 u r2 =
      ((App.handle_request ⟨s0, f0⟩ u r1).1, r1) ∧
    Model.handle_request (Model.handle_request ⟨s0, f0⟩ u r1).1 u r2 =
      ((Model.handle_request ⟨s0, f0⟩ u r1).1, r1) := by
  constructor
  · rw [app_handle_request_miss ⟨s0, f0⟩ u r1 hnone hr1]
    exact app_handle_request_hit _ u r2 r1 (lookupAssoc_append_self s0 u r1 hnone)
  · rw [model_handle_request_miss ⟨s0, f0⟩ u r1 hnone]
    exact model_handle_request_hit _ u r2 r1 (lookupAssoc_append_self s0 u r1 hnone)

/-- C7 (witness) at a concrete store and URL. -/
theorem c7_first_write_wins_witness :
    App.handle_request (App.handle_request ⟨[], []⟩ "https://e.com" [⟨"q1", "a1"⟩]).1
        "https://e.com" [⟨"q2", "a2"⟩] =
      ((App.handle_request ⟨[], []⟩ "https://e.com" [⟨"q1", "a1"⟩]).1, [⟨"q1", "a1"⟩]) ∧
    Model.handle_request (Model.handle_request ⟨[], []⟩ "https://e.com" [⟨"q1", "a1"⟩]).1
        "https://e.com" [⟨"q2", "a2"⟩] =
      ((Model.handle_request ⟨[], []⟩ "https://e.com" [⟨"q1", "a1"⟩]).1, [⟨"q1", "a1"⟩]) :=
  c7_first_write_wins [] [] "https://e.com" [⟨"q1", "a1"⟩] [⟨"q2", "a2"⟩] rfl (by decide)

/-- C8.  Every pair produced by either extractor, under every strategy,
has a non-empty question and a non-empty answer. -/
theorem c8_nonempty_fields (d : Dom) (p : FaqPair) :
    (p ∈ App.extract_faqs_from_html d → p.question ≠ "" ∧ p.answer ≠ "") ∧
    (p ∈ Model.extract_from_soup d → p.question ≠ "" ∧ p.answer ≠ "") := by
  constructor
  · intro h
    unfold App.extract_faqs_from_html at h
    simp only [App.stratA_eq_nil, ne_eq, not_true_eq_false, if_false, ite_not] at h
    split at h
    · split at h
      · exact App.stratD_fields h
      · exact App.stratC_fields h
    · exact App.stratB_fields h
  · intro h
    unfold Model.extract_from_soup at h
    have := acceptPairsSubset _ _ _ p h
    exact ⟨this.1, this.2.1⟩

/-- C8 (witness): applied to `dupDoc` and its emitted pair. -/
theorem c8_nonempty_fields_witness :
    (⟨"D?", "X"⟩ : FaqPair).question ≠ "" ∧ (⟨"D?", "X"⟩ : FaqPair).answer ≠ "" :=
  (c8_nonempty_fields dupDoc ⟨"D?", "X"⟩).1 (by decide)

/-- C10.  Empty results are not cached in `app.py`'s pipeline: a miss
whose extraction returns `[]` leaves store and cache file unchanged and
does not insert the URL, so the next request for it is again a miss. -/
theorem c10_empty_not_cached (s0 : Store) (f0 : List Json) (u : String)
    (hnone : lookupAssoc s0 u = none) :
    App.handle_request ⟨s0, f0⟩ u [] = (⟨s0, f0⟩, []) ∧
    lookupAssoc (App.handle_request ⟨s0, f0⟩ u []).1.store u = none := by
  have hstep : App.handle_request ⟨s0, f0⟩ u [] = (⟨s0, f0⟩, []) := by
    unfold App.handle_request
    rw [hnone]
    simp
  exact ⟨hstep, by rw [hstep]; exact hnone⟩

/-- C10 (witness) at a concrete store and URL. -/
theorem c10_empty_not_cached_witness :
    App.handle_request ⟨[("u0", [⟨"a", "b"⟩])], []⟩ "https://e.com" [] =
      (⟨[("u0", [⟨"a", "b"⟩])], []⟩, []) ∧
    lookupAssoc (App.handle_request ⟨[("u0", [⟨"a", "b"⟩])], []⟩ "https://e.com" []).1.store
      "https://e.com" = none :=
  c10_empty_not_cached [("u0", [⟨"a", "b"⟩])] [] "https://e.com" (by decide)

end URLX

namespace URLX

theorem closeAfterDigits_length :
    ∀ (l r : List Char), closeAfterDigits l = some r → r.length < l.length := by
  intro l
  induction l with
  | nil => intro r h; simp [closeAfterDigits] at h
  | cons c rest ih =>
    intro r h
    rw [closeAfterDigits] at h
    split at h
    · cases h
      simp
    · split at h
      · have := ih r h
        simp only [List.length_cons]
        omega
      · cases h

theorem digitsThenClose_length :
    ∀ (l r : List Char), digitsThenClose l = some r → r.length < l.length := by
  intro l
  match l with
  | [] => intro r h; simp [digitsThenClose] at h
  | c :: rest =>
    intro r h
    rw [digitsThenClose] at h
    split at h
    · have := closeAfterDigits_length rest r h
      simp only [List.length_cons]
      omega
    · cases h

/-- The result of `rbdF` does not depend on the fuel, as long as the
fuel covers the list length. -/
theorem rbdF_congr :
    ∀ (fuel : Nat) (l : List Char) (fuel' : Nat),
      l.length ≤ fuel → l.length ≤ fuel' → rbdF fuel l = rbdF fuel' l := by
  intro fuel
  induction fuel with
  | zero =>
    intro l fuel' h _
    have : l = [] := List.length_eq_zero.mp (Nat.le_zero.mp h)
    subst this
    cases fuel' <;> rfl
  | succ n ih =>
    intro l fuel' h h'
    match l, fuel' with
    | [], fuel' => cases fuel' <;> rfl
    | c :: rest, 0 => simp at h'
    | c :: rest, m + 1 =>
      rw [rbdF, rbdF]
      simp only [List.length_cons, Nat.add_le_add_iff_right] at h h'
      split
      · split
        · rename_i r2 heq
          have hlt := digitsThenClose_length rest r2 heq
          exact ih r2 m (by omega) (by omega)
        · rw [ih rest m h h']
      · rw [ih rest m h h']

theorem rbdF_id :
    ∀ (fuel : Nat) (l : List Char), '[' ∉ l → rbdF fuel l = l := by
  intro fuel
  induction fuel with
  | zero => intro l _; rfl
  | succ n ih =>
    intro l hl
    match l with
    | [] => rfl
    | c :: rest =>
      have hc : c ≠ '[' := fun he => hl (he ▸ List.mem_cons_self c rest)
      rw [rbdF, if_neg hc, ih rest (fun hm => hl (List.mem_cons_of_mem c hm))]

theorem rbd_cons_ne {c : Char} (l : List Char) (h : c ≠ '[') :
    rbd (c :: l) = c :: rbd l := by
  unfold rbd
  rw [List.length_cons, rbdF, if_neg h]

theorem isDigit_ne_close {c : Char} (h : c.isDigit = true) : c ≠ ']' := by
  intro he
  rw [he] at h
  simp [Char.isDigit] at h

theorem closeAfterDigits_digits :
    ∀ (d t : List Char), (∀ c ∈ d, c.isDigit = true) →
      closeAfterDigits (d ++ ']' :: t) = some t := by
  intro d
  induction d with
  | nil => intro t _; rfl
  | cons y d' ih =>
    intro t hdig
    have hy : y.isDigit = true := hdig y (List.mem_cons_self y d')
    rw [List.cons_append, closeAfterDigits, if_neg (isDigit_ne_close hy), if_pos hy]
    exact ih t (fun c hc => hdig c (List.mem_cons_of_mem y hc))

theorem digitsThenClose_digits :
    ∀ (d t : List Char), d ≠ [] → (∀ c ∈ d, c.isDigit = true) →
      digitsThenClose (d ++ ']' :: t) = some t := by
  intro d
  match d with
  | [] => intro t h _; exact absurd rfl h
  | x :: d' =>
    intro t _ hdig
    rw [List.cons_append, digitsThenClose, if_pos (hdig x (List.mem_cons_self x d'))]
    exact closeAfterDigits_digits d' t (fun c hc => hdig c (List.mem_cons_of_mem x hc))

/-- `re.sub(r"\[\d+\]", "", ·)` deletes a `[digits]` marker wherever it
occurs after bracket-free text, and scanning continues after it. -/
theorem rbd_removes :
    ∀ (s d t : List Char), '[' ∉ s → d ≠ [] → (∀ c ∈ d, c.isDigit = true) →
      rbd (s ++ '[' :: (d ++ ']' :: t)) = s ++ rbd t := by
  intro s
  induction s with
  | nil =>
    intro d t _ hne hdig
    simp only [List.nil_append]
    unfold rbd
    rw [List.length_cons, rbdF, if_pos rfl, digitsThenClose_digits d t hne hdig]
    exact rbdF_congr _ t _ (by simp only [List.length_append, List.length_cons]; omega) (le_refl _)
  | cons c s' ih =>
    intro d t hnotin hne hdig
    have hc : c ≠ '[' := fun he => hnotin (he ▸ List.mem_cons_self c s')
    rw [List.cons_append, rbd_cons_ne _ hc,
      ih d t (fun hm => hnotin (List.mem_cons_of_mem c hm)) hne hdig, List.cons_append]

/-- C9 (counterexample).  The claim says normalization leaves
non-citation bracketed text alone; `model.py`'s `clean_text` deletes
`[note]` (its final `re.sub(r"\[.*?\]", " ", ...)` removes every
bracketed segment). -/
theorem c9_citation_counterexample :
    Model.clean_text "see [note] here" = "see   here" ∧
    Model.clean_text "see [note] here" ≠ "see [note] here" :=
  ⟨by decide, by decide⟩

/-- C9 (amended).  `app.py`'s normalization removes exactly the
`[digits]` markers: its citation pass deletes every `[digits]` group
(first conjunct) and is the identity on bracket-free text (second
conjunct), and at the `clean_text` level `[12]` is removed while
`[note]` is kept.  `model.py`'s normalization instead replaces every
bracketed segment — digits or not — by a space (and its `<[digits]`
pass requires a preceding `<`). -/
theorem c9_citation_amended :
    (∀ (s d t : List Char), '[' ∉ s → d ≠ [] → (∀ c ∈ d, c.isDigit = true) →
      rbd (s ++ '[' :: (d ++ ']' :: t)) = s ++ rbd t) ∧
    (∀ l : List Char, '[' ∉ l → rbd l = l) ∧
    App.clean_text "cite [12] here" = "cite here" ∧
    App.clean_text "keep [note] here" = "keep [note] here" ∧
    Model.clean_text "keep [note] here" = "keep   here" :=
  ⟨rbd_removes, fun l hl => rbdF_id l.length l hl, by decide, by decide, by decide⟩

/-- C9 (witness) for the amended general statements at concrete
strings. -/
theorem c9_citation_amended_witness :
    rbd (['a', 'b'] ++ '[' :: (['4', '2'] ++ ']' :: ['c', 'd'])) =
      ['a', 'b'] ++ rbd ['c', 'd'] :=
  c9_citation_amended.1 ['a', 'b'] ['4', '2'] ['c', 'd']
    (by decide) (by decide) (by decide)

end URLX

namespace URLX

/-! ## Idempotence machinery for `clean_text` (claim C6)

After `re.sub(r"\s+", " ")` every whitespace character is a plain space
and no two are adjacent; after `strip()` the ends are non-space.  On
bracket-free inputs each pass of a second `clean_text` application is
then the identity. -/

/-- Every whitespace character of `l` is a plain space, and no two
whitespace characters are adjacent. -/
def WsOk (l : List Char) : Prop :=
  (∀ c ∈ l, isPySpace c = true → c = ' ') ∧
  List.Chain' (fun a b => ¬(isPySpace a = true ∧ isPySpace b = true)) l

theorem WsOk.tail {c : Char} {l : List Char} (h : WsOk (c :: l)) : WsOk l :=
  ⟨fun d hd => h.1 d (List.mem_cons_of_mem c hd), (List.chain'_cons'.mp h.2).2⟩

theorem collapseWsGo_false_cons (c : Char) (rest : List Char) :
    collapseWsGo false (c :: rest) =
      if isPySpace c then ' ' :: collapseWsGo true rest
      else c :: collapseWsGo false rest := by
  by_cases h : isPySpace c <;> simp [collapseWsGo, h]

theorem collapseWsGo_true_cons (c : Char) (rest : List Char) :
    collapseWsGo true (c :: rest) =
      if isPySpace c then collapseWsGo true rest
      else c :: collapseWsGo false rest := by
  by_cases h : isPySpace c <;> simp [collapseWsGo, h]

theorem collapseWsGo_facts :
    ∀ l : List Char,
      WsOk (collapseWsGo false l) ∧ WsOk (collapseWsGo true l) ∧
      (∀ c ∈ (collapseWsGo true l).head?, isPySpace c = false) := by
  intro l
  induction l with
  | nil =>
    have hnil : WsOk ([] : List Char) := ⟨by simp, List.chain'_nil⟩
    exact ⟨hnil, hnil, by simp [collapseWsGo]⟩
  | cons c rest ih =>
    obtain ⟨ihF, ihT, ihH⟩ := ih
    by_cases hc : isPySpace c = true
    · have hfold : collapseWsGo false (c :: rest) = ' ' :: collapseWsGo true rest := by
        rw [collapseWsGo_false_cons, if_pos hc]
      have htold : collapseWsGo true (c :: rest) = collapseWsGo true rest := by
        rw [collapseWsGo_true_cons, if_pos hc]
      refine ⟨?_, htold ▸ ihT, htold ▸ ihH⟩
      rw [hfold]
      constructor
      · intro d hd _
        rcases List.mem_cons.mp hd with rfl | hd'
        · rfl
        · exact ihT.1 d hd' (by assumption)
      · rw [List.chain'_cons']
        refine ⟨?_, ihT.2⟩
        intro y hy
        rw [ihH y hy]
        simp
    · have hcf : isPySpace c = false := by
        cases hcc : isPySpace c
        · rfl
        · exact absurd hcc hc
      have hfold : collapseWsGo false (c :: rest) = c :: collapseWsGo false rest := by
        rw [collapseWsGo_false_cons, if_neg hc]
      have htold : collapseWsGo true (c :: rest) = c :: collapseWsGo false rest := by
        rw [collapseWsGo_true_cons, if_neg hc]
      have hws : WsOk (c :: collapseWsGo false rest) := by
        constructor
        · intro d hd hdws
          rcases List.mem_cons.mp hd with rfl | hd'
          · rw [hdws] at hcf; cases hcf
          · exact ihF.1 d hd' hdws
        · rw [List.chain'_cons']
          refine ⟨?_, ihF.2⟩
          intro y _
          rw [hcf]
          simp
      refine ⟨hfold ▸ hws, htold ▸ hws, ?_⟩
      rw [htold]
      intro d hd
      simp only [List.head?_cons, Option.mem_def, Option.some.injEq] at hd
      rw [← hd]
      exact hcf

theorem wsOk_collapseWs (l : List Char) : WsOk (collapseWs l) :=
  (collapseWsGo_facts l).1

theorem collapseWsGo_id :
    ∀ l : List Char, WsOk l →
      collapseWsGo false l = l ∧
      ((∀ c ∈ l.head?, isPySpace c = false) → collapseWsGo true l = l) := by
  intro l
  induction l with
  | nil => exact fun _ => ⟨rfl, fun _ => rfl⟩
  | cons c rest ih =>
    intro h
    obtain ⟨ihF, ihT⟩ := ih h.tail
    by_cases hc : isPySpace c = true
    · have hsp : c = ' ' := h.1 c (List.mem_cons_self c rest) hc
      have hnext : ∀ d ∈ rest.head?, isPySpace d = false := by
        intro d hd
        have := (List.chain'_cons'.mp h.2).1 d hd
        cases hdws : isPySpace d
        · rfl
        · exact absurd ⟨hc, hdws⟩ this
      constructor
      · rw [collapseWsGo_false_cons, if_pos hc, ihT hnext, hsp]
      · intro hhead
        have := hhead c (by simp)
        rw [this] at hc
        cases hc
    · constructor
      · rw [collapseWsGo_false_cons, if_neg hc, ihF]
      · intro _
        rw [collapseWsGo_true_cons, if_neg hc, ihF]

theorem collapseWs_id {l : List Char} (h : WsOk l) : collapseWs l = l :=
  (collapseWsGo_id l h).1

end URLX

namespace URLX

theorem wsOk_append_right {a b : List Char} (h : WsOk (a ++ b)) : WsOk b :=
  ⟨fun c hc => h.1 c (List.mem_append_right a hc),
   (List.chain'_append.mp h.2).2.1⟩

theorem wsOk_dropWhile {l : List Char} (p : Char → Bool) (h : WsOk l) :
    WsOk (l.dropWhile p) := by
  have heq := List.takeWhile_append_dropWhile p l
  rw [← heq] at h
  exact wsOk_append_right h

theorem wsOk_reverse {l : List Char} (h : WsOk l) : WsOk l.reverse := by
  constructor
  · intro c hc
    exact h.1 c (List.mem_reverse.mp hc)
  · rw [List.chain'_reverse]
    refine h.2.imp ?_
    intro a b hab ⟨h1, h2⟩
    exact hab ⟨h2, h1⟩

theorem wsOk_pyStrip {l : List Char} (h : WsOk l) : WsOk (pyStrip l) := by
  unfold pyStrip pyDropStartWs pyDropEndWs
  exact wsOk_reverse (wsOk_dropWhile _ (wsOk_reverse (wsOk_dropWhile _ h)))

theorem dropWhile_head_not (p : Char → Bool) :
    ∀ (l : List Char) (c : Char), (l.dropWhile p).head? = some c → p c = false := by
  intro l
  induction l with
  | nil => intro c h; cases h
  | cons d rest ih =>
    intro c h
    rw [List.dropWhile_cons] at h
    split at h
    · exact ih c h
    · rename_i hd
      simp only [List.head?_cons, Option.some.injEq] at h
      subst h
      cases hpd : p d
      · rfl
      · exact absurd hpd hd

theorem head?_append_left {a b : List Char} {c : Char} (h : a.head? = some c) :
    (a ++ b).head? = some c := by
  cases a with
  | nil => cases h
  | cons x a' => simpa using h

theorem head?_pyDropEndWs {m : List Char} {c : Char}
    (h : (pyDropEndWs m).head? = some c) : m.head? = some c := by
  obtain ⟨t, ht⟩ := List.dropWhile_suffix (l := m.reverse) isPySpace
  have hm : m = (pyDropEndWs m) ++ t.reverse := by
    unfold pyDropEndWs
    calc m = m.reverse.reverse := (List.reverse_reverse m).symm
    _ = (t ++ m.reverse.dropWhile isPySpace).reverse := by rw [ht]
    _ = (m.reverse.dropWhile isPySpace).reverse ++ t.reverse := List.reverse_append _ _
  rw [hm]
  exact head?_append_left h

theorem head_pyStrip_not_ws {l : List Char} {c : Char}
    (h : (pyStrip l).head? = some c) : isPySpace c = false := by
  have := head?_pyDropEndWs (m := pyDropStartWs l) h
  exact dropWhile_head_not isPySpace l c this

theorem last_pyStrip_not_ws {l : List Char} {c : Char}
    (h : (pyStrip l).getLast? = some c) : isPySpace c = false := by
  unfold pyStrip pyDropEndWs at h
  rw [List.getLast?_reverse] at h
  exact dropWhile_head_not isPySpace _ c h

theorem dropWhile_eq_self_of_head {l : List Char} (p : Char → Bool)
    (h : ∀ c ∈ l.head?, p c = false) : l.dropWhile p = l := by
  cases l with
  | nil => rfl
  | cons c rest =>
    rw [List.dropWhile_cons, if_neg]
    rw [h c (by simp)]
    simp

theorem pyStrip_id {l : List Char}
    (hh : ∀ c ∈ l.head?, isPySpace c = false)
    (hl : ∀ c ∈ l.getLast?, isPySpace c = false) : pyStrip l = l := by
  unfold pyStrip pyDropStartWs pyDropEndWs
  rw [dropWhile_eq_self_of_head _ hh, dropWhile_eq_self_of_head, List.reverse_reverse]
  intro c hc
  rw [List.head?_reverse] at hc
  exact hl c hc

theorem mem_collapseWsGo :
    ∀ (b : Bool) (l : List Char) (c : Char), c ∈ collapseWsGo b l → c ∈ l ∨ c = ' ' := by
  intro b l
  induction l generalizing b with
  | nil => intro c h; simp [collapseWsGo] at h
  | cons d rest ih =>
    intro c h
    cases b
    · rw [collapseWsGo_false_cons] at h
      split at h
      · rcases List.mem_cons.mp h with rfl | h'
        · exact Or.inr rfl
        · rcases ih true c h' with h'' | h''
          · exact Or.inl (List.mem_cons_of_mem d h'')
          · exact Or.inr h''
      · rcases List.mem_cons.mp h with rfl | h'
        · exact Or.inl (List.mem_cons_self c rest)
        · rcases ih false c h' with h'' | h''
          · exact Or.inl (List.mem_cons_of_mem d h'')
          · exact Or.inr h''
    · rw [collapseWsGo_true_cons] at h
      split at h
      · rcases ih true c h with h'' | h''
        · exact Or.inl (List.mem_cons_of_mem d h'')
        · exact Or.inr h''
      · rcases List.mem_cons.mp h with rfl | h'
        · exact Or.inl (List.mem_cons_self c rest)
        · rcases ih false c h' with h'' | h''
          · exact Or.inl (List.mem_cons_of_mem d h'')
          · exact Or.inr h''

theorem mem_pyStrip {l : List Char} {c : Char} (h : c ∈ pyStrip l) : c ∈ l := by
  unfold pyStrip pyDropStartWs pyDropEndWs at h
  rw [List.mem_reverse] at h
  have h1 := (List.dropWhile_suffix isPySpace).sublist.subset h
  rw [List.mem_reverse] at h1
  exact (List.dropWhile_suffix isPySpace).sublist.subset h1

theorem subNbsp_id_of_wsOk {l : List Char} (h : WsOk l) : subNbsp l = l := by
  unfold subNbsp
  induction l with
  | nil => rfl
  | cons c rest ih =>
    rw [List.map_cons, ih h.tail]
    congr 1
    by_cases hc : c = '\xa0'
    · have : c = ' ' := h.1 c (List.mem_cons_self c rest) (by rw [hc]; decide)
      rw [this] at hc
      cases hc
    · rw [if_neg hc]

theorem rlbdF_nil : ∀ fuel : Nat, rlbdF fuel [] = [] := by
  intro fuel
  cases fuel <;> rfl

theorem rlbdF_id :
    ∀ (fuel : Nat) (l : List Char), '[' ∉ l → rlbdF fuel l = l := by
  intro fuel
  induction fuel with
  | zero => intro l _; rfl
  | succ n ih =>
    intro l hl
    match l with
    | [] => rfl
    | c :: rest =>
      have hrest : '[' ∉ rest := fun hm => hl (List.mem_cons_of_mem c hm)
      by_cases hc : c = '<'
      · subst hc
        cases rest with
        | nil => simp [rlbdF, rlbdF_nil]
        | cons d r1 =>
          have hd : d ≠ '[' := fun he => hrest (he ▸ List.mem_cons_self d r1)
          rw [show rlbdF (n + 1) ('<' :: d :: r1) =
              if d = '[' then
                (match digitsThenClose r1 with
                 | some r2 => rlbdF n r2
                 | none => '<' :: rlbdF n (d :: r1))
              else '<' :: rlbdF n (d :: r1) by simp [rlbdF]]
          rw [if_neg hd, ih _ hrest]
      · rw [show rlbdF (n + 1) (c :: rest) =
            if c = '<' then rlbdF (n + 1) (c :: rest) else c :: rlbdF n rest by
              rw [if_neg hc]; simp [rlbdF, hc]]
        rw [if_neg hc, ih rest hrest]

theorem sabF_id :
    ∀ (fuel : Nat) (l : List Char), '[' ∉ l → sabF fuel l = l := by
  intro fuel
  induction fuel with
  | zero => intro l _; rfl
  | succ n ih =>
    intro l hl
    match l with
    | [] => rfl
    | c :: rest =>
      have hc : c ≠ '[' := fun he => hl (he ▸ List.mem_cons_self c rest)
      rw [sabF, if_neg hc, ih rest (fun hm => hl (List.mem_cons_of_mem c hm))]

end URLX

namespace URLX

theorem rbd_id {l : List Char} (h : '[' ∉ l) : rbd l = l :=
  rbdF_id l.length l h

theorem rlbd_id {l : List Char} (h : '[' ∉ l) : rlbd l = l :=
  rlbdF_id l.length l h

theorem sab_id {l : List Char} (h : '[' ∉ l) : sab l = l :=
  sabF_id l.length l h

/-- On bracket-free input, `app.py`'s `clean_text` reduces to symbol
filtering, whitespace collapse and strip: the citation pass is the
identity, and after the collapse no `\xa0` remains so that pass is the
identity too. -/
theorem app_clean_canonical (s : String) (h : '[' ∉ s.data) :
    App.clean_text s =
      ⟨pyStrip (collapseWs (s.data.filter (fun c => !(c = '¶' || c = 'Â'))))⟩ := by
  unfold App.clean_text
  have hy : '[' ∉ s.data.filter (fun c => !(c = '¶' || c = 'Â')) :=
    fun hm => h (List.mem_of_mem_filter hm)
  rw [rbd_id hy, subNbsp_id_of_wsOk (wsOk_collapseWs _)]

/-- Same reduction for `model.py` on bracket-free input: both bracket
passes are the identity. -/
theorem model_clean_canonical (s : String) (h : '[' ∉ s.data) :
    Model.clean_text s =
      ⟨pyStrip (collapseWs
        ((s.data.filter (fun c => !(c = '¶'))).filter (fun c => !(c = 'Â'))))⟩ := by
  unfold Model.clean_text
  have hy : '[' ∉ (s.data.filter (fun c => !(c = '¶'))).filter (fun c => !(c = 'Â')) :=
    fun hm => h (List.mem_of_mem_filter (List.mem_of_mem_filter hm))
  have hcy : '[' ∉ collapseWs ((s.data.filter (fun c => !(c = '¶'))).filter
      (fun c => !(c = 'Â'))) := by
    intro hm
    rcases mem_collapseWsGo false _ '[' hm with h' | h'
    · exact hy h'
    · exact absurd h' (by decide)
  rw [rlbd_id hy, subNbsp_id_of_wsOk (wsOk_collapseWs _), sab_id hcy]

theorem canonical_props (y : List Char) :
    WsOk (pyStrip (collapseWs y)) ∧
    (∀ c ∈ (pyStrip (collapseWs y)).head?, isPySpace c = false) ∧
    (∀ c ∈ (pyStrip (collapseWs y)).getLast?, isPySpace c = false) ∧
    (∀ c ∈ pyStrip (collapseWs y), c ∈ y ∨ c = ' ') :=
  ⟨wsOk_pyStrip (wsOk_collapseWs y),
   fun _ hc => head_pyStrip_not_ws hc,
   fun _ hc => last_pyStrip_not_ws hc,
   fun c hc => mem_collapseWsGo false y c (mem_pyStrip hc)⟩

/-- A second `app.py` `clean_text` pass is the identity on strings in
canonical form (normal whitespace, stripped ends, no brackets, no stray
symbols). -/
theorem app_clean_of_canonical (w : List Char) (hws : WsOk w)
    (hh : ∀ c ∈ w.head?, isPySpace c = false)
    (hl : ∀ c ∈ w.getLast?, isPySpace c = false)
    (hnb : '[' ∉ w) (hsyms : ∀ c ∈ w, (!(c = '¶' || c = 'Â')) = true) :
    App.clean_text ⟨w⟩ = ⟨w⟩ := by
  unfold App.clean_text
  rw [show (String.mk w).data = w from rfl]
  rw [List.filter_eq_self.mpr hsyms, rbd_id hnb, collapseWs_id hws,
    subNbsp_id_of_wsOk hws, pyStrip_id hh hl]

/-- A second `model.py` `clean_text` pass is the identity on canonical
strings. -/
theorem model_clean_of_canonical (w : List Char) (hws : WsOk w)
    (hh : ∀ c ∈ w.head?, isPySpace c = false)
    (hl : ∀ c ∈ w.getLast?, isPySpace c = false)
    (hnb : '[' ∉ w) (hp : ∀ c ∈ w, (!(c = '¶')) = true)
    (ha : ∀ c ∈ w, (!(c = 'Â')) = true) :
    Model.clean_text ⟨w⟩ = ⟨w⟩ := by
  unfold Model.clean_text
  rw [show (String.mk w).data = w from rfl]
  rw [List.filter_eq_self.mpr hp, List.filter_eq_self.mpr ha, rlbd_id hnb,
    collapseWs_id hws, subNbsp_id_of_wsOk hws, sab_id hnb, pyStrip_id hh hl]

/-- C6 (counterexample).  Neither `clean_text` is idempotent on all
strings: `app.py`'s citation pass can expose a fresh `[digits]` marker
(`"[1[2]3]"` → `"[13]"` → `""`), and `model.py`'s bracket pass inserts
a space next to existing spaces after whitespace was already collapsed
(`"a [x] b"` → `"a   b"` → `"a b"`). -/
theorem c6_idempotence_counterexample :
    App.clean_text (App.clean_text "[1[2]3]") ≠ App.clean_text "[1[2]3]" ∧
    Model.clean_text (Model.clean_text "a [x] b") ≠ Model.clean_text "a [x] b" :=
  ⟨by decide, by decide⟩

/-- C6 (amended).  On strings containing no opening bracket, both
normalization functions are idempotent: the bracket passes are the
identity, and the output of the first pass has collapsed whitespace and
stripped ends, on which every pass of a second application is the
identity. -/
theorem c6_normalize_idempotent_amended (s : String) (h : '[' ∉ s.data) :
    App.clean_text (App.clean_text s) = App.clean_text s ∧
    Model.clean_text (Model.clean_text s) = Model.clean_text s := by
  constructor
  · rw [app_clean_canonical s h]
    obtain ⟨hws, hh, hl, hmem⟩ :=
      canonical_props (s.data.filter (fun c => !(c = '¶' || c = 'Â')))
    apply app_clean_of_canonical _ hws hh hl
    · intro hm
      rcases hmem '[' hm with h' | h'
      · exact h (List.mem_of_mem_filter h')
      · exact absurd h' (by decide)
    · intro c hc
      rcases hmem c hc with h' | h'
      · exact (List.mem_filter.mp h').2
      · subst h'
        decide
  · rw [model_clean_canonical s h]
    obtain ⟨hws, hh, hl, hmem⟩ :=
      canonical_props ((s.data.filter (fun c => !(c = '¶'))).filter (fun c => !(c = 'Â')))
    apply model_clean_of_canonical _ hws hh hl
    · intro hm
      rcases hmem '[' hm with h' | h'
      · exact h (List.mem_of_mem_filter (List.mem_of_mem_filter h'))
      · exact absurd h' (by decide)
    · intro c hc
      rcases hmem c hc with h' | h'
      · exact (List.mem_filter.mp (List.mem_filter.mp h').1).2
      · subst h'
        decide
    · intro c hc
      rcases hmem c hc with h' | h'
      · exact (List.mem_filter.mp h').2
      · subst h'
        decide

/-- C6 (witness) at a string with stray symbols and uncollapsed
whitespace. -/
theorem c6_normalize_idempotent_amended_witness :
    App.clean_text (App.clean_text " a  ¶ b ") = App.clean_text " a  ¶ b " ∧
    Model.clean_text (Model.clean_text " a  ¶ b ") = Model.clean_text " a  ¶ b " :=
  c6_normalize_idempotent_amended " a  ¶ b " (by decide)

end URLX
